import Mathlib

/-!
Verification of the folder-based sorter orchestration in
`src/spikeinterface/sorters/basesorter.py`.

The embedding models the JSON artifacts (`spikeinterface_params.json`,
`spikeinterface_log.json`, `spikeinterface_recording.json` / `.pickle`) as
key-value lists in insertion order (Python dicts preserve insertion order),
and the class methods of `BaseSorter` as pure functions from an explicit
environment (the parts of the world they read: file contents, the outcome of
the subclass hook `_run_from_folder`, clocks) to the files they write plus a
normal return value or a raised Python exception.
-/

/-- JSON-like values as parsed and produced by the Python `json` module:
null, booleans, integers, floats (modelled as rationals), strings, arrays,
and objects (key-value lists in insertion order, like Python dicts). -/
inductive JValue where
  | null : JValue
  | jbool : Bool → JValue
  | jint : Int → JValue
  | jnum : Rat → JValue
  | jstr : String → JValue
  | jarr : List JValue → JValue
  | jobj : List (String × JValue) → JValue

/-- Python dict assignment `d[k] = v`: replace the value of the first (and in
a Python dict, only) occurrence of the key in place, else append at the end. -/
def dset {α : Type} : List (String × α) → String → α → List (String × α)
  | [], k, v => [(k, v)]
  | (k0, v0) :: rest, k, v =>
      if k0 = k then (k0, v) :: rest else (k0, v0) :: dset rest k v

/-- Python dict lookup `d.get(k)` / `d[k]`: value of the first occurrence. -/
def dget {α : Type} : List (String × α) → String → Option α
  | [], _ => none
  | (k0, v0) :: rest, k => if k0 = k then some v0 else dget rest k

/-- Python `d.update(new)`: assign each key of `new` in order. -/
def dupdate {α : Type} (d new : List (String × α)) : List (String × α) :=
  new.foldl (fun acc kv => dset acc kv.1 kv.2) d

/-- Python `d.keys()` as a list in insertion order. -/
def dkeys {α : Type} (d : List (String × α)) : List String :=
  d.map Prod.fst

/-- Python truthiness `bool(v)` of a parsed JSON value. -/
def jtruthy : JValue → Bool
  | .null => false
  | .jbool b => b
  | .jint n => n != 0
  | .jnum q => q != 0
  | .jstr s => s != ""
  | .jarr xs => !xs.isEmpty
  | .jobj kvs => !kvs.isEmpty

/-- Python `v is None` for a parsed JSON value. -/
def isNone : JValue → Bool
  | .null => true
  | _ => false

/-- The single-quote character, used by the Python `repr` of strings. -/
def squote : String := String.singleton (Char.ofNat 39)

/-- One character of the Python `repr` of a string (escaping backslash, the
single quote, and the common control characters). -/
def pyEscapeChar (c : Char) : String :=
  if c = Char.ofNat 92 then String.singleton (Char.ofNat 92) ++ String.singleton (Char.ofNat 92)
  else if c = Char.ofNat 39 then String.singleton (Char.ofNat 92) ++ squote
  else if c = Char.ofNat 10 then String.singleton (Char.ofNat 92) ++ "n"
  else if c = Char.ofNat 13 then String.singleton (Char.ofNat 92) ++ "r"
  else if c = Char.ofNat 9 then String.singleton (Char.ofNat 92) ++ "t"
  else String.singleton c

/-- Python `repr` of a string: single-quoted with escapes (Python switches to
double quotes when the string contains a single quote but no double quote;
that cosmetic special case is not modelled). -/
def pyReprString (s : String) : String :=
  squote ++ String.join (s.data.map pyEscapeChar) ++ squote

mutual

/-- Python `repr` of a parsed JSON value (float formatting approximated by
the rational `toString`; the claims never depend on a numeric repr). -/
def pyRepr : JValue → String
  | .null => "None"
  | .jbool true => "True"
  | .jbool false => "False"
  | .jint n => toString n
  | .jnum q => toString q
  | .jstr s => pyReprString s
  | .jarr xs => "[" ++ pyReprJList xs ++ "]"
  | .jobj kvs => "\x7b" ++ pyReprJObj kvs ++ "\x7d"

/-- Comma-separated `repr` of the elements of a Python list. -/
def pyReprJList : List JValue → String
  | [] => ""
  | [x] => pyRepr x
  | x :: y :: rest => pyRepr x ++ ", " ++ pyReprJList (y :: rest)

/-- Comma-separated `repr` of the items of a Python dict. -/
def pyReprJObj : List (String × JValue) → String
  | [] => ""
  | [(k, v)] => pyReprString k ++ ": " ++ pyRepr v
  | (k, v) :: kv2 :: rest => pyReprString k ++ ": " ++ pyRepr v ++ ", " ++ pyReprJObj (kv2 :: rest)

end

/-- Python `str(v)`: a string prints itself, every other value prints as its
`repr` (inside f-string interpolation, as used for the log error trace). -/
def pyStr : JValue → String
  | .jstr s => s
  | v => pyRepr v

/-- The Python exceptions raised by the modelled code paths. -/
inductive PyErr where
  | exc : String → PyErr
  | valueError : String → PyErr
  | runtimeError : String → PyErr
  | spikeSortingError : String → PyErr
  | keyError : String → PyErr
deriving DecidableEq, Repr

/-- Modelled from the spec: `check_json` (imported from
`spikeinterface.core.core_tools`, whose source is not among the provided
files) sanitizes a mapping into a JSON-compatible form before `json.dump`.
The spec describes the dumped artifacts as simple flat records with
well-known keys, so it is modelled as preserving the mapping unchanged: the
values of this embedding are already JSON values. -/
def check_json (d : List (String × JValue)) : List (String × JValue) := d

/-- Environment of one `BaseSorter.run_from_folder` call: everything the
function reads from the world. `outcome` is the behaviour of the subclass
hook `SorterClass._run_from_folder`: either the elapsed time measured on
success, or the string `traceback.format_exc()` returns when the hook raises.
`runtime_trace_file` is the content (as raw lines) of
`sorter_output/{sorter_name}.log` when that file exists. -/
structure RunEnv where
  output_folder : String
  sorter_name : String
  sorter_version : String
  datetime_str : String
  outcome : Except String Rat
  runtime_trace_file : Option (List String)

/-- Result of one `run_from_folder` call: the content written to
`output_folder/spikeinterface_log.json` (always written, before any raise),
and either the returned `run_time` or the raised exception. -/
structure RunOutput where
  log : List (String × JValue)
  result : Except PyErr (Option Rat)

/-- Lines of `log["error_trace"]`: `traceback.format_exc()` stripped, split
on newlines, re-headed with the standard traceback banner, and each non
indented line indented by two spaces (basesorter.py lines 278-283). -/
def format_error_trace (error_log_to_display : String) : List String :=
  let trace_lines := error_log_to_display.trim.splitOn "\n"
  "Traceback (most recent call last):" ::
    (trace_lines.drop 1).map (fun line => if line.startsWith " " then line else "  " ++ line)

/-- Message of the `SpikeSortingError` raised by `run_from_folder`
(basesorter.py lines 310-313). -/
def spike_sorting_failed_msg (error_log_to_display : String) (output_folder : String) : String :=
  "Spike sorting error trace:\n" ++ error_log_to_display ++ "\n" ++
    "Spike sorting failed. You can inspect the runtime trace in " ++ output_folder ++
    "/spikeinterface_log.json."

/-- The `runtime_trace` entry: each line of the shell-script log file,
stripped (basesorter.py lines 289-297); `[]` when the file does not exist. -/
def read_runtime_trace (file : Option (List String)) : List JValue :=
  (file.getD []).map (fun line => JValue.jstr line.trim)

/-- Shared tail of `run_from_folder` after the try/except block: set
`error` and `run_time`, read the shell-script runtime trace, dump the log to
`spikeinterface_log.json`, then raise or return (basesorter.py lines 285-315). -/
def run_from_folder_tail (env : RunEnv) (raise_error : Bool) (log : List (String × JValue))
    (has_error : Bool) (run_time : Option Rat) (error_log_to_display : String) : RunOutput :=
  let log := dset log "error" (JValue.jbool has_error)
  let log := dset log "run_time" (match run_time with | some rt => JValue.jnum rt | none => JValue.null)
  let log := dset log "runtime_trace" (JValue.jarr (read_runtime_trace env.runtime_trace_file))
  let written := check_json log
  { log := written,
    result :=
      if has_error && raise_error then
        .error (.spikeSortingError
          (spike_sorting_failed_msg error_log_to_display env.output_folder))
      else .ok run_time }

/-- `BaseSorter.run_from_folder` (basesorter.py lines 244-315): build the log
record, run the subclass hook under try/except, record `error` /
`error_trace` / `run_time` / `runtime_trace`, write the log file, and raise a
single `SpikeSortingError` only when the hook raised and `raise_error` holds. -/
def run_from_folder (env : RunEnv) (raise_error : Bool) (verbose : Bool) : RunOutput :=
  let log := [("sorter_name", JValue.jstr env.sorter_name),
              ("sorter_version", JValue.jstr env.sorter_version),
              ("datetime", JValue.jstr env.datetime_str),
              ("runtime_trace", JValue.jarr [])]
  match env.outcome with
  | .ok run_time => run_from_folder_tail env raise_error log false (some run_time) ""
  | .error error_log_to_display =>
      let log := dset log "error" (JValue.jbool true)
      let log := dset log "error_trace"
        (JValue.jarr ((format_error_trace error_log_to_display).map JValue.jstr))
      run_from_folder_tail env raise_error log true none error_log_to_display

/-- `is_log_ok` (basesorter.py lines 457-465): true when the log file exists
and its `run_time` entry is present and not `None`. The argument is the
parsed content of `output_folder/spikeinterface_log.json`, or `none` when
that path is not a file. -/
def is_log_ok (log_file : Option (List (String × JValue))) : Bool :=
  match log_file with
  | some log =>
      match dget log "run_time" with
      | some run_time => !(isNone run_time)
      | none => false
  | none => false

example :
    run_from_folder
      { output_folder := "of", sorter_name := "s", sorter_version := "1",
        datetime_str := "d", outcome := .ok 2, runtime_trace_file := none } false false
    = { log := [("sorter_name", JValue.jstr "s"), ("sorter_version", JValue.jstr "1"),
                ("datetime", JValue.jstr "d"), ("runtime_trace", JValue.jarr []),
                ("error", JValue.jbool false), ("run_time", JValue.jnum 2)],
        result := .ok (some 2) } := by
  rfl

example :
    (run_from_folder
      { output_folder := "of", sorter_name := "s", sorter_version := "1",
        datetime_str := "d", outcome := .error "Traceback (most recent call last):\nboom",
        runtime_trace_file := none } true false).result
    = .error (.spikeSortingError (spike_sorting_failed_msg
        "Traceback (most recent call last):\nboom" "of")) := by
  rfl

/-- C1: when the subclass hook `_run_from_folder` raises, `run_from_folder`
intercepts the exception, serializes the formatted traceback into the
`error_trace` field of the log written to
`output_folder/spikeinterface_log.json` with `error` set to true, writes the
same log whether or not it will raise (the file is on disk before any
exception propagates), then raises a single `SpikeSortingError` when
`raise_error` is true, and returns `run_time = None` without raising when
`raise_error` is false. -/
theorem C1_run_error_interception (env : RunEnv) (verbose : Bool) (tb : String)
    (houtcome : env.outcome = .error tb) :
    dget (run_from_folder env true verbose).log "error_trace"
        = some (JValue.jarr ((format_error_trace tb).map JValue.jstr)) ∧
    dget (run_from_folder env true verbose).log "error" = some (JValue.jbool true) ∧
    (run_from_folder env true verbose).log = (run_from_folder env false verbose).log ∧
    (run_from_folder env true verbose).result
        = .error (.spikeSortingError (spike_sorting_failed_msg tb env.output_folder)) ∧
    (run_from_folder env false verbose).result = .ok none := by
  obtain ⟨of, sn, sv, dt, oc, rtf⟩ := env
  cases houtcome
  exact ⟨rfl, rfl, rfl, rfl, rfl⟩

/-- Witness for C1 at a concrete environment. -/
theorem C1_run_error_interception_witness :
    dget (run_from_folder
        { output_folder := "of", sorter_name := "s", sorter_version := "1",
          datetime_str := "d", outcome := .error "ValueError: boom",
          runtime_trace_file := none } true false).log "error_trace"
      = some (JValue.jarr ((format_error_trace "ValueError: boom").map JValue.jstr)) :=
  (C1_run_error_interception _ false "ValueError: boom" rfl).1

/-- C2: every completed `run_from_folder` call writes the log as a flat
record whose keys are exactly `sorter_name`, `sorter_version`, `datetime`,
`runtime_trace`, `error`, `run_time`, plus `error_trace` present exactly when
the sorter run raised; `run_time` is None exactly in the error case and the
measured float otherwise. -/
theorem C2_log_shape (env : RunEnv) (raise_error verbose : Bool) :
    ((run_from_folder env raise_error verbose).log.map Prod.fst
      = match env.outcome with
        | .ok _ => ["sorter_name", "sorter_version", "datetime", "runtime_trace",
                    "error", "run_time"]
        | .error _ => ["sorter_name", "sorter_version", "datetime", "runtime_trace",
                       "error", "error_trace", "run_time"]) ∧
    (∀ tb, env.outcome = .error tb →
      dget (run_from_folder env raise_error verbose).log "error" = some (JValue.jbool true) ∧
      dget (run_from_folder env raise_error verbose).log "run_time" = some JValue.null) ∧
    (∀ rt, env.outcome = .ok rt →
      dget (run_from_folder env raise_error verbose).log "error" = some (JValue.jbool false) ∧
      dget (run_from_folder env raise_error verbose).log "run_time" = some (JValue.jnum rt) ∧
      dget (run_from_folder env raise_error verbose).log "error_trace" = none) := by
  obtain ⟨of, sn, sv, dt, oc, rtf⟩ := env
  cases oc with
  | ok rt =>
      refine ⟨rfl, fun tb h => Except.noConfusion h, fun rt2 h => ?_⟩
      rw [show rt2 = rt from (Except.ok.injEq _ _).mp h.symm]
      exact ⟨rfl, rfl, rfl⟩
  | error tb =>
      refine ⟨rfl, fun tb2 h => ?_, fun rt h => Except.noConfusion h⟩
      exact ⟨rfl, rfl⟩

/-- Witness for C2 at a concrete environment. -/
theorem C2_log_shape_witness :
    dget (run_from_folder
        { output_folder := "of", sorter_name := "s", sorter_version := "1",
          datetime_str := "d", outcome := .ok 5,
          runtime_trace_file := some ["line one", "line two"] } true false).log "run_time"
      = some (JValue.jnum 5) :=
  ((C2_log_shape _ true false).2.2 5 rfl).2.1

/-- C10: `is_log_ok` returns true exactly when the log file exists and its
`run_time` entry is present and not None; for the log just written by
`run_from_folder` this holds exactly when the run completed without error. -/
theorem C10_is_log_ok_spec (lf : Option (List (String × JValue))) (env : RunEnv)
    (raise_error verbose : Bool) :
    (is_log_ok lf = true ↔
      ∃ log run_time, lf = some log ∧ dget log "run_time" = some run_time ∧
        isNone run_time = false) ∧
    (is_log_ok (some (run_from_folder env raise_error verbose).log)
      = match env.outcome with | .ok _ => true | .error _ => false) := by
  constructor
  · cases lf with
    | none => simp [is_log_ok]
    | some log =>
      cases hd : dget log "run_time" with
      | none => simp [is_log_ok, hd]
      | some v => simp [is_log_ok, hd]
  · obtain ⟨of, sn, sv, dt, oc, rtf⟩ := env
    cases oc with
    | ok rt => rfl
    | error tb => rfl

/-- One entry of an output folder on disk: a subdirectory, a JSON file with
its parsed content, or a pickle file (content opaque to this embedding). -/
inductive FsData where
  | dirD : FsData
  | jsonD : JValue → FsData
  | pickleD : FsData

/-- Contents of the resolved output folder: entries by name. -/
abbrev FolderC := List (String × FsData)

/-- Lookup of one entry of a folder by name. -/
def fget (folder : FolderC) (name : String) : Option FsData :=
  dget folder name

/-- The class-level configuration of a concrete sorter that
`BaseSorter.initialize_folder` consults. -/
structure SorterCls where
  sorter_name : String
  installation_mesg : String
  installed : Bool
  requires_locations : Bool
  handle_multi_segment : Bool

/-- The properties of the recording argument that
`BaseSorter.initialize_folder` consults: whether it is a
`BaseRecordingSnippets`, whether channel locations are available, the number
of segments, the two serializability checks, and the descriptor that
`recording.dump` writes. -/
structure Recording where
  is_snippets : Bool
  has_locations : Bool
  num_segments : Nat
  json_serializable : Bool
  pickle_serializable : Bool
  descriptor : JValue

/-- `BaseSorter.initialize_folder` (basesorter.py lines 100-153) as a
function from the prior state of the resolved output folder (`none` when the
path is not a directory) to the posterior state plus either a raised
exception or a normal return. The checks run in source order: installation,
recording type, channel locations, existing folder (removed when
`remove_existing_folder`, otherwise `ValueError`), folder creation with an
empty `sorter_output` subfolder, the multi-segment check, then the recording
dump to `spikeinterface_recording.json`, else `.pickle`, else `RuntimeError`. -/
def initialize_folder (cls : SorterCls) (rec : Recording) (folder_path : String)
    (remove_existing_folder : Bool) (pre : Option FolderC) :
    Option FolderC × Except PyErr Unit :=
  if !cls.installed then
    (pre, .error (.exc ("The sorter " ++ cls.sorter_name ++
      " is not installed. Please install it with:\n" ++ cls.installation_mesg)))
  else if !rec.is_snippets then
    (pre, .error (.valueError "recording must be a Recording or a Snippets!!"))
  else if cls.requires_locations && !rec.has_locations then
    (pre, .error (.runtimeError ("Channel locations are required for this spike sorter. " ++
      "Locations can be added to the RecordingExtractor by loading a probe file " ++
      "(.prb or .csv) or by setting them manually.")))
  else if pre.isSome && !remove_existing_folder then
    (pre, .error (.valueError ("Folder " ++ folder_path ++ " already exists")))
  else
    let made : FolderC := [("sorter_output", FsData.dirD)]
    if rec.num_segments > 1 && !cls.handle_multi_segment then
      (some made, .error (.valueError ("This sorter " ++ cls.sorter_name ++
        " does not handle multi-segment recordings, use si.concatenate_recordings(...)")))
    else if rec.json_serializable then
      (some (made ++ [("spikeinterface_recording.json", FsData.jsonD rec.descriptor)]), .ok ())
    else if rec.pickle_serializable then
      (some (made ++ [("spikeinterface_recording.pickle", FsData.pickleD)]), .ok ())
    else
      (some made, .error (.runtimeError ("This recording is not serializable and so can " ++
        "not be sorted. Consider `recording.save()` to save a compatible binary file.")))

/-- C3: on the serialization step of `initialize_folder` (all earlier checks
passing), a JSON-serializable recording has its descriptor dumped to
`spikeinterface_recording.json`; otherwise a pickle-serializable recording is
dumped to `spikeinterface_recording.pickle`; otherwise a `RuntimeError` is
raised and neither recording file is produced. -/
theorem C3_recording_serialization (cls : SorterCls) (rec : Recording) (fp : String)
    (removeExisting : Bool) (pre : Option FolderC)
    (hinst : cls.installed = true) (hsnip : rec.is_snippets = true)
    (hloc : (cls.requires_locations && !rec.has_locations) = false)
    (hexists : (pre.isSome && !removeExisting) = false)
    (hseg : (decide (rec.num_segments > 1) && !cls.handle_multi_segment) = false) :
    (rec.json_serializable = true →
      (initialize_folder cls rec fp removeExisting pre).2 = .ok () ∧
      ∃ post, (initialize_folder cls rec fp removeExisting pre).1 = some post ∧
        fget post "spikeinterface_recording.json" = some (FsData.jsonD rec.descriptor) ∧
        fget post "spikeinterface_recording.pickle" = none) ∧
    (rec.json_serializable = false → rec.pickle_serializable = true →
      (initialize_folder cls rec fp removeExisting pre).2 = .ok () ∧
      ∃ post, (initialize_folder cls rec fp removeExisting pre).1 = some post ∧
        fget post "spikeinterface_recording.pickle" = some FsData.pickleD ∧
        fget post "spikeinterface_recording.json" = none) ∧
    (rec.json_serializable = false → rec.pickle_serializable = false →
      (initialize_folder cls rec fp removeExisting pre).2
        = .error (.runtimeError ("This recording is not serializable and so can " ++
            "not be sorted. Consider `recording.save()` to save a compatible binary file.")) ∧
      ∃ post, (initialize_folder cls rec fp removeExisting pre).1 = some post ∧
        fget post "spikeinterface_recording.json" = none ∧
        fget post "spikeinterface_recording.pickle" = none) := by
  refine ⟨fun hj => ?_, fun hj hp => ?_, fun hj hp => ?_⟩
  · simp [initialize_folder, hinst, hsnip, hloc, hexists, hseg, hj, fget, dget]
  · simp [initialize_folder, hinst, hsnip, hloc, hexists, hseg, hj, hp, fget, dget]
  · simp [initialize_folder, hinst, hsnip, hloc, hexists, hseg, hj, hp, fget, dget]

/-- Witness for C3 at a concrete sorter, recording and folder state. -/
theorem C3_recording_serialization_witness :
    (initialize_folder
        { sorter_name := "s", installation_mesg := "m", installed := true,
          requires_locations := false, handle_multi_segment := false }
        { is_snippets := true, has_locations := true, num_segments := 1,
          json_serializable := true, pickle_serializable := false,
          descriptor := JValue.jobj [("kind", JValue.jstr "rec")] }
        "/tmp/out" false none).2 = .ok () :=
  ((C3_recording_serialization
      { sorter_name := "s", installation_mesg := "m", installed := true,
        requires_locations := false, handle_multi_segment := false }
      { is_snippets := true, has_locations := true, num_segments := 1,
        json_serializable := true, pickle_serializable := false,
        descriptor := JValue.jobj [("kind", JValue.jstr "rec")] }
      "/tmp/out" false none rfl rfl rfl rfl rfl).1 rfl).1

/-- C8: when the resolved output folder already exists, `initialize_folder`
raises `ValueError` and leaves the existing folder untouched if
`remove_existing_folder` is false; if it is true, the pre-existing tree is
deleted and a fresh folder containing exactly an empty `sorter_output`
subfolder (plus the dumped recording descriptor) is created. -/
theorem C8_existing_folder (cls : SorterCls) (rec : Recording) (fp : String)
    (preC : FolderC)
    (hinst : cls.installed = true) (hsnip : rec.is_snippets = true)
    (hloc : (cls.requires_locations && !rec.has_locations) = false) :
    (initialize_folder cls rec fp false (some preC)
      = (some preC, .error (.valueError ("Folder " ++ fp ++ " already exists")))) ∧
    ((decide (rec.num_segments > 1) && !cls.handle_multi_segment) = false →
      rec.json_serializable = true →
      initialize_folder cls rec fp true (some preC)
        = (some [("sorter_output", FsData.dirD),
                 ("spikeinterface_recording.json", FsData.jsonD rec.descriptor)], .ok ())) := by
  constructor
  · simp [initialize_folder, hinst, hsnip, hloc]
  · intro hseg hj
    simp [initialize_folder, hinst, hsnip, hloc, hseg, hj]

/-- Witness for C8 at a concrete sorter, recording and pre-existing folder. -/
theorem C8_existing_folder_witness :
    initialize_folder
        { sorter_name := "s", installation_mesg := "m", installed := true,
          requires_locations := false, handle_multi_segment := false }
        { is_snippets := true, has_locations := true, num_segments := 1,
          json_serializable := true, pickle_serializable := false,
          descriptor := JValue.null }
        "/tmp/out" false (some [("old.txt", FsData.jsonD JValue.null)])
      = (some [("old.txt", FsData.jsonD JValue.null)],
         .error (.valueError ("Folder " ++ "/tmp/out" ++ " already exists"))) :=
  (C8_existing_folder
      { sorter_name := "s", installation_mesg := "m", installed := true,
        requires_locations := false, handle_multi_segment := false }
      { is_snippets := true, has_locations := true, num_segments := 1,
        json_serializable := true, pickle_serializable := false,
        descriptor := JValue.null }
      "/tmp/out" [("old.txt", FsData.jsonD JValue.null)] rfl rfl rfl).1

/-- Boolean list prefix test, used to model the phrase `begins with` on
exception messages. -/
def listBegins {α : Type} [DecidableEq α] : List α → List α → Bool
  | [], _ => true
  | _ :: _, [] => false
  | p :: ps, x :: xs => if p = x then listBegins ps xs else false

/-- String prefix test on the underlying character lists. -/
def strBegins (p s : String) : Bool := listBegins p.data s.data

/-- Message of the `SpikeSortingError` raised by `get_result_from_folder`
when the log file is missing (basesorter.py line 324). -/
def get_result_error_msg : String :=
  "Get result error: the folder does not contain the `spikeinterface_log.json` file"

/-- Message of the `SpikeSortingError` raised by `get_result_from_folder`
when the log records an error (basesorter.py lines 330-333): an f-string
interpolating `log["error_trace"]` with Python `str`. -/
def sorting_failed_log_msg (error_trace : JValue) (output_folder : String) : String :=
  "Spike sorting error trace:\n" ++ pyStr error_trace ++ "\n" ++
    "Spike sorting failed. You can inspect the runtime trace in " ++ output_folder ++
    "/spikeinterface_log.json."

/-- Environment of one `BaseSorter.get_result_from_folder` call: the parsed
content of `output_folder/spikeinterface_log.json` (`none` when that path is
not a file) and, abstractly, what the rest of the body (the subclass hook
`_get_result_from_folder`, recording registration and sorting info) yields
once the log checks pass. Sorting objects are abstracted to identifiers. -/
structure GetEnv where
  output_folder : String
  log_file : Option (List (String × JValue))
  tail_result : Except PyErr Nat

/-- `BaseSorter.get_result_from_folder` (basesorter.py lines 317-361): raise
a `Get result error` `SpikeSortingError` when the log file is missing, raise
a sorting-failure `SpikeSortingError` carrying the logged `error_trace` when
`bool(log["error"])` holds, and otherwise proceed to load and return the
sorting. -/
def get_result_from_folder (env : GetEnv) : Except PyErr Nat :=
  match env.log_file with
  | none => .error (.spikeSortingError get_result_error_msg)
  | some log =>
      match dget log "error" with
      | none => .error (.keyError "error")
      | some v =>
          if jtruthy v then
            match dget log "error_trace" with
            | none => .error (.keyError "error_trace")
            | some et => .error (.spikeSortingError (sorting_failed_log_msg et env.output_folder))
          else env.tail_result

theorem listBegins_get_result_spike (rest : List Char) :
    listBegins ("Get result error").data (("Spike sorting error trace:\n").data ++ rest)
      = false := rfl

theorem sorting_failed_log_msg_decomp (et : JValue) (of2 : String) :
    sorting_failed_log_msg et of2
      = "Spike sorting error trace:\n" ++ (pyStr et ++
          ("\nSpike sorting failed. You can inspect the runtime trace in " ++ (of2 ++
           "/spikeinterface_log.json."))) := by
  simp [sorting_failed_log_msg, String.append_assoc]

theorem strBegins_sorting_failed (et : JValue) (of2 : String) :
    strBegins "Get result error" (sorting_failed_log_msg et of2) = false := by
  rw [sorting_failed_log_msg_decomp, strBegins, String.data_append]
  exact listBegins_get_result_spike _

/-- C4: when the log file is missing, `get_result_from_folder` raises a
`SpikeSortingError` whose message begins with `Get result error`, and that
message is distinct from (in particular, not a prefix-sharing variant of) the
sorting-failure `SpikeSortingError` raised when the log file exists and
records an error. -/
theorem C4_get_result_missing_log (env env2 : GetEnv) (log : List (String × JValue))
    (v et : JValue)
    (hmiss : env.log_file = none)
    (hlog : env2.log_file = some log) (herr : dget log "error" = some v)
    (htruthy : jtruthy v = true) (het : dget log "error_trace" = some et) :
    get_result_from_folder env = .error (.spikeSortingError get_result_error_msg) ∧
    strBegins "Get result error" get_result_error_msg = true ∧
    get_result_from_folder env2
      = .error (.spikeSortingError (sorting_failed_log_msg et env2.output_folder)) ∧
    strBegins "Get result error" (sorting_failed_log_msg et env2.output_folder) = false ∧
    get_result_error_msg ≠ sorting_failed_log_msg et env2.output_folder := by
  refine ⟨?_, rfl, ?_, ?_, ?_⟩
  · simp [get_result_from_folder, hmiss]
  · simp [get_result_from_folder, hlog, herr, htruthy, het]
  · exact strBegins_sorting_failed et env2.output_folder
  · intro h
    have h1 : strBegins "Get result error" get_result_error_msg = true := rfl
    rw [h] at h1
    rw [strBegins_sorting_failed et env2.output_folder] at h1
    exact Bool.noConfusion h1

/-- Witness for C4 at concrete folder states. -/
theorem C4_get_result_missing_log_witness :
    get_result_from_folder { output_folder := "of", log_file := none, tail_result := .ok 0 }
      = .error (.spikeSortingError get_result_error_msg) :=
  (C4_get_result_missing_log
      { output_folder := "of", log_file := none, tail_result := .ok 0 }
      { output_folder := "of2",
        log_file := some [("error", JValue.jbool true),
                          ("error_trace", JValue.jarr [JValue.jstr "boom"])],
        tail_result := .ok 0 }
      [("error", JValue.jbool true), ("error_trace", JValue.jarr [JValue.jstr "boom"])]
      (JValue.jbool true) (JValue.jarr [JValue.jstr "boom"])
      rfl rfl rfl rfl rfl).1

/-- C5: when the log file exists and its `error` field is truthy,
`get_result_from_folder` raises a `SpikeSortingError` whose message includes
the logged `error_trace`, and returns no sorting; the body proceeds to load
and return a sorting only when the logged `error` field is falsy. -/
theorem C5_get_result_error_field (env : GetEnv) (log : List (String × JValue)) (v : JValue)
    (hlog : env.log_file = some log) (herr : dget log "error" = some v) :
    (∀ et, dget log "error_trace" = some et → jtruthy v = true →
      get_result_from_folder env
        = .error (.spikeSortingError (sorting_failed_log_msg et env.output_folder)) ∧
      ∃ pre post, sorting_failed_log_msg et env.output_folder = pre ++ (pyStr et ++ post)) ∧
    (jtruthy v = false → get_result_from_folder env = env.tail_result) ∧
    (∀ s, get_result_from_folder env = .ok s → jtruthy v = false) := by
  refine ⟨fun et het htr => ?_, fun hf => ?_, fun s hs => ?_⟩
  · refine ⟨by simp [get_result_from_folder, hlog, herr, htr, het], ?_⟩
    exact ⟨"Spike sorting error trace:\n",
      "\nSpike sorting failed. You can inspect the runtime trace in " ++
        (env.output_folder ++ "/spikeinterface_log.json."),
      sorting_failed_log_msg_decomp et env.output_folder⟩
  · simp [get_result_from_folder, hlog, herr, hf]
  · by_contra hne
    rw [Bool.not_eq_false] at hne
    cases het : dget log "error_trace" with
    | none => simp [get_result_from_folder, hlog, herr, hne, het] at hs
    | some et => simp [get_result_from_folder, hlog, herr, hne, het] at hs

/-- Witness for C5 at a concrete folder state with a falsy `error` field. -/
theorem C5_get_result_error_field_witness :
    get_result_from_folder
      { output_folder := "of",
        log_file := some [("error", JValue.jbool false), ("run_time", JValue.jnum 3)],
        tail_result := .ok 7 } = .ok 7 :=
  ((C5_get_result_error_field
      { output_folder := "of",
        log_file := some [("error", JValue.jbool false), ("run_time", JValue.jnum 3)],
        tail_result := .ok 7 }
      [("error", JValue.jbool false), ("run_time", JValue.jnum 3)]
      (JValue.jbool false) rfl rfl).2.1 rfl).trans rfl

/-- Class-level data of a concrete sorter consulted by `default_params` and
`set_params_to_folder`: the class attribute `_default_params` (as returned by
`_dynamic_params`), the `requires_binary_data` flag, and the subclass hook
`_check_params` (the base class returns the params unchanged). -/
structure ParamsCls where
  sorter_name : String
  requires_binary_data : Bool
  default_params0 : List (String × JValue)
  check_params_hook : List (String × JValue) → List (String × JValue)

/-- `BaseSorter.default_params` (basesorter.py lines 161-168) at the level of
dictionary values: a deep copy of the class defaults, updated with the global
job kwargs when the sorter requires binary data. `job_kwargs` stands for the
result of `get_global_job_kwargs()` (from `spikeinterface.core.globals`, not
among the provided files). The aliasing content of the deep copy is treated
in the heap model further below. -/
def default_params_val (cls : ParamsCls) (job_kwargs : List (String × JValue)) :
    List (String × JValue) :=
  if cls.requires_binary_data then dupdate cls.default_params0 job_kwargs
  else cls.default_params0

/-- The local `invalid_parameters` of `set_params_to_folder` (basesorter.py
line 188): the keys of `new_params` absent from the default parameter keys. -/
def invalid_parameters (cls : ParamsCls) (jk np : List (String × JValue)) : List String :=
  (dkeys np).filter (fun k => !(dkeys (default_params_val cls jk)).contains k)

/-- Message of the `ValueError` raised on invalid parameters (basesorter.py
line 191): an f-string interpolating a Python list of keys and a `dict_keys`
view. -/
def invalid_params_msg (invalid valid : List String) : String :=
  "Invalid parameters: [" ++ String.intercalate ", " (invalid.map pyReprString) ++ "] \n" ++
    "Valid parameters are: dict_keys([" ++ String.intercalate ", " (valid.map pyReprString)
    ++ "])"

/-- Result of one `set_params_to_folder` call: the content written to
`output_folder/spikeinterface_params.json` when it is written, and the
returned params dict or the raised exception. -/
structure SetParamsOutput where
  params_file : Option (List (String × JValue))
  result : Except PyErr (List (String × JValue))

/-- `BaseSorter.set_params_to_folder` together with `_dump_params`
(basesorter.py lines 178-205 and 227-233): validate `new_params` against the
default parameter keys, raise `ValueError` on any unknown key, otherwise
update the defaults, run the subclass hook `_check_params`, dump
`spikeinterface_params.json` with keys `sorter_name` and `sorter_params`, and
return the params dict. The filter warning print has no effect on state and
is not modelled. -/
def set_params_to_folder (cls : ParamsCls) (jk np : List (String × JValue)) :
    SetParamsOutput :=
  let params := default_params_val cls jk
  if invalid_parameters cls jk np = [] then
    let params := dupdate params np
    let params := cls.check_params_hook params
    let all_params := [("sorter_name", JValue.jstr cls.sorter_name),
                       ("sorter_params", JValue.jobj params)]
    { params_file := some (check_json all_params), result := .ok params }
  else
    { params_file := none,
      result := .error (.valueError
        (invalid_params_msg (invalid_parameters cls jk np) (dkeys params))) }

/-- C6: `set_params_to_folder` raises `ValueError` exactly when `new_params`
contains a key absent from the default parameters; otherwise it writes
`spikeinterface_params.json` with exactly the keys `sorter_name` and
`sorter_params`, where `sorter_params` is the defaults updated with
`new_params` as transformed by the `_check_params` hook, and it returns that
same params dict. -/
theorem C6_set_params (cls : ParamsCls) (jk np : List (String × JValue)) :
    ((∃ m, (set_params_to_folder cls jk np).result = .error (.valueError m)) ↔
      ∃ k, k ∈ dkeys np ∧ k ∉ dkeys (default_params_val cls jk)) ∧
    ((∀ k ∈ dkeys np, k ∈ dkeys (default_params_val cls jk)) →
      (set_params_to_folder cls jk np).params_file
        = some [("sorter_name", JValue.jstr cls.sorter_name),
                ("sorter_params", JValue.jobj
                  (cls.check_params_hook (dupdate (default_params_val cls jk) np)))] ∧
      (set_params_to_folder cls jk np).result
        = .ok (cls.check_params_hook (dupdate (default_params_val cls jk) np))) := by
  have hiff : invalid_parameters cls jk np = []
      ↔ ∀ k ∈ dkeys np, k ∈ dkeys (default_params_val cls jk) := by
    simp [invalid_parameters, List.filter_eq_nil_iff]
  refine ⟨⟨fun hm => ?_, fun hk => ?_⟩, fun hall => ?_⟩
  · by_contra hno
    push_neg at hno
    have hemp : invalid_parameters cls jk np = [] := hiff.mpr hno
    obtain ⟨m, hm⟩ := hm
    simp [set_params_to_folder, hemp] at hm
  · obtain ⟨k, hk1, hk2⟩ := hk
    have hne : invalid_parameters cls jk np ≠ [] := fun hemp => hk2 (hiff.mp hemp k hk1)
    exact ⟨invalid_params_msg (invalid_parameters cls jk np)
        (dkeys (default_params_val cls jk)),
      by simp [set_params_to_folder, hne]⟩
  · have hemp : invalid_parameters cls jk np = [] := hiff.mpr hall
    constructor <;> simp [set_params_to_folder, hemp, check_json]

/-- Witness for C6 at a concrete sorter class and params. -/
theorem C6_set_params_witness :
    (set_params_to_folder
        { sorter_name := "s", requires_binary_data := false,
          default_params0 := [("a", JValue.jint 1)], check_params_hook := id }
        [] [("a", JValue.jint 2)]).result = .ok [("a", JValue.jint 2)] :=
  (((C6_set_params
      { sorter_name := "s", requires_binary_data := false,
        default_params0 := [("a", JValue.jint 1)], check_params_hook := id }
      [] [("a", JValue.jint 2)]).2 (by decide)).2).trans rfl

/-- A mutable Python value: an immutable primitive (None, bool, number,
string) or a reference to a heap object. Used to state the aliasing content
of `copy.deepcopy` in `default_params` and `params_description`. -/
inductive PVal where
  | prim : JValue → PVal
  | ref : Nat → PVal

/-- A heap object: a Python dict or a Python list. -/
inductive PObj where
  | pdict : List (String × PVal) → PObj
  | plist : List PVal → PObj

/-- The Python heap: objects addressed by position; allocation appends. -/
abbrev Heap := List PObj

/-- Observational snapshot of a heap value: the tree of primitives reached
by dereferencing. -/
inductive PTree where
  | tprim : JValue → PTree
  | tdict : List (String × PTree) → PTree
  | tlist : List PTree → PTree

/-- Snapshot of a value to a given dereferencing depth; `none` when the
depth does not suffice or a reference dangles. -/
def readVal : Nat → Heap → PVal → Option PTree
  | _, _, .prim j => some (.tprim j)
  | 0, _, .ref _ => none
  | fuel + 1, h, .ref a =>
      match h[a]? with
      | none => none
      | some (.pdict kvs) =>
          (kvs.mapM (fun kv => (readVal fuel h kv.2).map (fun t => (kv.1, t)))).map PTree.tdict
      | some (.plist vs) => (vs.mapM (readVal fuel h)).map PTree.tlist

mutual

/-- Allocation part of Python `copy.deepcopy`: write a snapshot tree into
the heap as entirely fresh objects, returning the extended heap and the new
value; primitives are immutable in Python and are returned as themselves. -/
def writeTree : Heap → PTree → Heap × PVal
  | h, .tprim j => (h, .prim j)
  | h, .tdict kvs =>
      let r := writeTreeKVs h kvs
      (r.1 ++ [.pdict r.2], .ref r.1.length)
  | h, .tlist ts =>
      let r := writeTreeList h ts
      (r.1 ++ [.plist r.2], .ref r.1.length)

/-- Write the values of a dict snapshot, left to right. -/
def writeTreeKVs : Heap → List (String × PTree) → Heap × List (String × PVal)
  | h, [] => (h, [])
  | h, (k, t) :: rest =>
      let r := writeTree h t
      let r2 := writeTreeKVs r.1 rest
      (r2.1, (k, r.2) :: r2.2)

/-- Write the elements of a list snapshot, left to right. -/
def writeTreeList : Heap → List PTree → Heap × List PVal
  | h, [] => (h, [])
  | h, t :: rest =>
      let r := writeTree h t
      let r2 := writeTreeList r.1 rest
      (r2.1, r.2 :: r2.2)

end

/-- Python `copy.deepcopy` modelled as snapshot-then-rebuild: read the value
to depth `fuel`, then write the snapshot back as fresh objects. The
memo-based sharing preservation inside one `deepcopy` call is not observable
through `readVal` and is not modelled. -/
def deepcopy (fuel : Nat) (h : Heap) (v : PVal) : Option (Heap × PVal) :=
  (readVal fuel h v).map (writeTree h)

/-- Python `p.update(new)` on a heap dict: mutate the referenced object in
place. -/
def heapDictUpdate (h : Heap) (v : PVal) (new : List (String × PVal)) : Option Heap :=
  match v with
  | .ref a =>
      match h[a]? with
      | some (.pdict kvs) => some (h.set a (.pdict (dupdate kvs new)))
      | _ => none
  | .prim _ => none

/-- `BaseSorter.default_params` (basesorter.py lines 161-168) on the heap:
`p = copy.deepcopy(default_params)` followed, when the sorter requires
binary data, by the in-place `p.update(job_kwargs)`; the global job kwargs
carry primitive values. `attr` is the class attribute `_default_params`. -/
def default_params_heap (fuel : Nat) (h : Heap) (attr : PVal) (rb : Bool)
    (jk : List (String × JValue)) : Option (Heap × PVal) :=
  match deepcopy fuel h attr with
  | none => none
  | some (h2, p) =>
      if rb then
        (heapDictUpdate h2 p (jk.map (fun kv => (kv.1, PVal.prim kv.2)))).map (fun h3 => (h3, p))
      else some (h2, p)

/-- `BaseSorter.params_description` (basesorter.py lines 170-176) on the
heap: the same deepcopy-then-optional-update shape, with the class attribute
`_params_description` and the literal `default_job_kwargs_description`
(string values, hence primitives). -/
def params_description_heap (fuel : Nat) (h : Heap) (attr : PVal) (rb : Bool)
    (descr : List (String × JValue)) : Option (Heap × PVal) :=
  default_params_heap fuel h attr rb descr

/-- The params assembly inside `set_params_to_folder` (basesorter.py lines
186-194) on the heap: `params = cls.default_params()` then the in-place
`params.update(new_params)`; user-supplied values are arbitrary. -/
def set_params_assemble_heap (fuel : Nat) (h : Heap) (attr : PVal) (rb : Bool)
    (jk : List (String × JValue)) (np : List (String × PVal)) : Option (Heap × PVal) :=
  match default_params_heap fuel h attr rb jk with
  | none => none
  | some (h2, p) => (heapDictUpdate h2 p np).map (fun h3 => (h3, p))

/-- Addresses reachable from a value within a given number of dereferences. -/
def reachA : Nat → Heap → PVal → List Nat
  | _, _, .prim _ => []
  | 0, _, .ref _ => []
  | fuel + 1, h, .ref a =>
      a :: (match h[a]? with
        | some (.pdict kvs) => (kvs.map Prod.snd).flatMap (reachA fuel h)
        | some (.plist vs) => vs.flatMap (reachA fuel h)
        | none => [])

/-- References of a value lie at or above `n` (in the fresh region). -/
def valLB (n : Nat) : PVal → Prop
  | .prim _ => True
  | .ref a => n ≤ a

/-- References of a value lie below `n` (inside the heap). -/
def valUB (n : Nat) : PVal → Prop
  | .prim _ => True
  | .ref a => a < n

/-- The values contained in a heap object. -/
def objVals : PObj → List PVal
  | .pdict kvs => kvs.map Prod.snd
  | .plist vs => vs

/-- A closed heap: every stored reference points inside the heap. -/
def HeapWF (h : Heap) : Prop :=
  ∀ (a : Nat) (o : PObj), h[a]? = some o → ∀ v ∈ objVals o, valUB h.length v

/-- The region at and above `n` is self-contained: objects there only
reference addresses at or above `n`. -/
def SegLB (n : Nat) (h : Heap) : Prop :=
  ∀ (a : Nat) (o : PObj), n ≤ a → h[a]? = some o → ∀ v ∈ objVals o, valLB n v

theorem valLB_mono {m n : Nat} (hmn : m ≤ n) : ∀ v, valLB n v → valLB m v
  | .prim _, _ => trivial
  | .ref _, hv => le_trans hmn hv

theorem valUB_mono {m n : Nat} (hmn : m ≤ n) : ∀ v, valUB m v → valUB n v
  | .prim _, _ => trivial
  | .ref _, hv => lt_of_lt_of_le hv hmn

theorem optionMapM_congr {α β : Type} (g g2 : α → Option β) :
    ∀ (xs : List α), (∀ x ∈ xs, g x = g2 x) → xs.mapM g = xs.mapM g2 := by
  intro xs
  induction xs with
  | nil => intro _; rfl
  | cons x xs ih =>
      intro hx
      rw [List.mapM_cons, List.mapM_cons, hx x (by simp),
        ih (fun y hy => hx y (by simp [hy]))]

theorem readVal_append (rest : List PObj) : ∀ (fuel : Nat) (h : Heap), HeapWF h →
    ∀ v, valUB h.length v → readVal fuel (h ++ rest) v = readVal fuel h v := by
  intro fuel
  induction fuel with
  | zero => intro h _ v _; cases v <;> rfl
  | succ f ih =>
      intro h hwf v hv
      cases v with
      | prim j => rfl
      | ref a =>
          have ha : a < h.length := hv
          have hget : (h ++ rest)[a]? = h[a]? := by
            rw [List.getElem?_append]; exact if_pos ha
          simp only [readVal, hget]
          cases hobj : h[a]? with
          | none => rfl
          | some o =>
              have hvals := hwf a o hobj
              cases o with
              | pdict kvs =>
                  exact congrArg (Option.map PTree.tdict) (optionMapM_congr _ _ kvs
                    (fun kv hkv => by
                      rw [ih h hwf kv.2 (hvals kv.2 (List.mem_map_of_mem Prod.snd hkv))]))
              | plist vs =>
                  exact congrArg (Option.map PTree.tlist) (optionMapM_congr _ _ vs
                    (fun w hw => ih h hwf w (hvals w hw)))

theorem reach_fresh (n : Nat) : ∀ (fuel : Nat) (h : Heap) (v : PVal),
    valLB n v → SegLB n h → ∀ b, b ∈ reachA fuel h v → n ≤ b := by
  intro fuel
  induction fuel with
  | zero =>
      intro h v _ _ b hb
      cases v with
      | prim j => simp [reachA] at hb
      | ref a => simp [reachA] at hb
  | succ f ih =>
      intro h v hlb hseg b hb
      cases v with
      | prim j => simp [reachA] at hb
      | ref a =>
          simp only [reachA, List.mem_cons] at hb
          rcases hb with rfl | hb
          · exact hlb
          · cases hobj : h[a]? with
            | none => rw [hobj] at hb; simp at hb
            | some o =>
                rw [hobj] at hb
                have hvals := hseg a o hlb hobj
                cases o with
                | pdict kvs =>
                    simp only [List.mem_flatMap] at hb
                    obtain ⟨w, hw, hbw⟩ := hb
                    exact ih h w (hvals w hw) hseg b hbw
                | plist vs =>
                    simp only [List.mem_flatMap] at hb
                    obtain ⟨w, hw, hbw⟩ := hb
                    exact ih h w (hvals w hw) hseg b hbw

theorem dset_vals_sub {α : Type} (k : String) (x : α) :
    ∀ (d : List (String × α)) (w : α), w ∈ (dset d k x).map Prod.snd →
      w ∈ d.map Prod.snd ∨ w = x := by
  intro d
  induction d with
  | nil =>
      intro w hw
      simp [dset] at hw
      exact Or.inr hw
  | cons kv rest ih =>
      intro w hw
      obtain ⟨k0, v0⟩ := kv
      by_cases hk : k0 = k
      · simp only [dset, if_pos hk, List.map_cons, List.mem_cons] at hw
        rcases hw with hw | hw
        · exact Or.inr hw
        · exact Or.inl (by simp [hw])
      · simp only [dset, if_neg hk, List.map_cons, List.mem_cons] at hw
        rcases hw with hw | hw
        · exact Or.inl (by simp [hw])
        · rcases ih w hw with h1 | h1
          · exact Or.inl (by rw [List.map_cons]; exact List.mem_cons.mpr (Or.inr h1))
          · exact Or.inr h1

theorem dupdate_vals_sub {α : Type} :
    ∀ (new d : List (String × α)) (w : α), w ∈ (dupdate d new).map Prod.snd →
      w ∈ d.map Prod.snd ∨ w ∈ new.map Prod.snd := by
  intro new
  induction new with
  | nil => intro d w hw; exact Or.inl hw
  | cons kv rest ih =>
      intro d w hw
      rcases ih (dset d kv.1 kv.2) w hw with h1 | h1
      · rcases dset_vals_sub kv.1 kv.2 d w h1 with h2 | h2
        · exact Or.inl h2
        · exact Or.inr (by simp [h2])
      · exact Or.inr (by rw [List.map_cons]; exact List.mem_cons.mpr (Or.inr h1))

theorem SegLB_set (n : Nat) (h : Heap) (b : Nat) (o : PObj)
    (hseg : SegLB n h) (ho : ∀ v ∈ objVals o, valLB n v) : SegLB n (h.set b o) := by
  intro a o2 hna hget w hw
  by_cases hab : b = a
  · subst hab
    by_cases hb : b < h.length
    · rw [List.getElem?_set_self hb] at hget
      cases hget
      exact ho w hw
    · rw [List.getElem?_set, if_pos rfl, if_neg hb] at hget
      exact Option.noConfusion hget
  · rw [List.getElem?_set_ne hab] at hget
    exact hseg a o2 hna hget w hw

theorem SegLB_refl_top (h : Heap) : SegLB h.length h := by
  intro a o hna hget w _
  have := (List.getElem?_eq_some.mp hget).1
  omega

theorem heap_prefix_length {h h2 : Heap} (he : ∃ e, h2 = h ++ e) : h.length ≤ h2.length := by
  obtain ⟨e, rfl⟩ := he
  simp

mutual

theorem writeTree_spec : ∀ (h : Heap) (t : PTree),
    (∃ e, (writeTree h t).1 = h ++ e) ∧
    valLB h.length (writeTree h t).2 ∧
    valUB (writeTree h t).1.length (writeTree h t).2 ∧
    (∀ n, n ≤ h.length → SegLB n h → SegLB n (writeTree h t).1)
  | h, .tprim j =>
      ⟨⟨[], by simp [writeTree]⟩, trivial, trivial,
        fun n _ hseg => by simpa [writeTree] using hseg⟩
  | h, .tdict kvs => by
      simp only [writeTree]
      obtain ⟨⟨e, he⟩, hvals, hsegp⟩ := writeTreeKVs_spec h kvs
      have hlen : h.length ≤ (writeTreeKVs h kvs).1.length := heap_prefix_length ⟨e, he⟩
      refine ⟨⟨e ++ [.pdict (writeTreeKVs h kvs).2], by rw [he, List.append_assoc]⟩,
        hlen, by simp [valUB], ?_⟩
      · intro n hn hseg
        have hseg1 := hsegp n hn hseg
        intro a o hna hget w hw
        rw [List.getElem?_append] at hget
        by_cases ha : a < (writeTreeKVs h kvs).1.length
        · rw [if_pos ha] at hget
          exact hseg1 a o hna hget w hw
        · rw [if_neg ha] at hget
          cases hidx : a - (writeTreeKVs h kvs).1.length with
          | zero =>
              rw [hidx] at hget
              have ho : PObj.pdict (writeTreeKVs h kvs).2 = o := Option.some.inj hget
              subst ho
              exact valLB_mono hn w (hvals w hw).1
          | succ m =>
              rw [hidx] at hget
              exact Option.noConfusion hget
  | h, .tlist ts => by
      simp only [writeTree]
      obtain ⟨⟨e, he⟩, hvals, hsegp⟩ := writeTreeList_spec h ts
      have hlen : h.length ≤ (writeTreeList h ts).1.length := heap_prefix_length ⟨e, he⟩
      refine ⟨⟨e ++ [.plist (writeTreeList h ts).2], by rw [he, List.append_assoc]⟩,
        hlen, by simp [valUB], ?_⟩
      · intro n hn hseg
        have hseg1 := hsegp n hn hseg
        intro a o hna hget w hw
        rw [List.getElem?_append] at hget
        by_cases ha : a < (writeTreeList h ts).1.length
        · rw [if_pos ha] at hget
          exact hseg1 a o hna hget w hw
        · rw [if_neg ha] at hget
          cases hidx : a - (writeTreeList h ts).1.length with
          | zero =>
              rw [hidx] at hget
              have ho : PObj.plist (writeTreeList h ts).2 = o := Option.some.inj hget
              subst ho
              exact valLB_mono hn w (hvals w hw).1
          | succ m =>
              rw [hidx] at hget
              exact Option.noConfusion hget

theorem writeTreeKVs_spec : ∀ (h : Heap) (kvs : List (String × PTree)),
    (∃ e, (writeTreeKVs h kvs).1 = h ++ e) ∧
    (∀ w ∈ (writeTreeKVs h kvs).2.map Prod.snd,
      valLB h.length w ∧ valUB (writeTreeKVs h kvs).1.length w) ∧
    (∀ n, n ≤ h.length → SegLB n h → SegLB n (writeTreeKVs h kvs).1)
  | h, [] =>
      ⟨⟨[], by simp [writeTreeKVs]⟩, by simp [writeTreeKVs],
        fun n _ hseg => by simpa [writeTreeKVs] using hseg⟩
  | h, (k, t) :: rest => by
      simp only [writeTreeKVs]
      obtain ⟨⟨e1, he1⟩, hlb1, hub1, hsegp1⟩ := writeTree_spec h t
      obtain ⟨⟨e2, he2⟩, hvals2, hsegp2⟩ := writeTreeKVs_spec (writeTree h t).1 rest
      have hl1 : h.length ≤ (writeTree h t).1.length := heap_prefix_length ⟨e1, he1⟩
      have hl2 : (writeTree h t).1.length ≤ (writeTreeKVs (writeTree h t).1 rest).1.length :=
        heap_prefix_length ⟨e2, he2⟩
      refine ⟨⟨e1 ++ e2, by rw [he2, he1, List.append_assoc]⟩, ?_, ?_⟩
      · intro w hw
        rw [List.map_cons] at hw
        rcases List.mem_cons.mp hw with rfl | hw2
        · exact ⟨hlb1, valUB_mono hl2 _ hub1⟩
        · obtain ⟨hwl, hwu⟩ := hvals2 w hw2
          exact ⟨valLB_mono hl1 w hwl, hwu⟩
      · intro n hn hseg
        exact hsegp2 n (le_trans hn hl1) (hsegp1 n hn hseg)

theorem writeTreeList_spec : ∀ (h : Heap) (ts : List PTree),
    (∃ e, (writeTreeList h ts).1 = h ++ e) ∧
    (∀ w ∈ (writeTreeList h ts).2,
      valLB h.length w ∧ valUB (writeTreeList h ts).1.length w) ∧
    (∀ n, n ≤ h.length → SegLB n h → SegLB n (writeTreeList h ts).1)
  | h, [] =>
      ⟨⟨[], by simp [writeTreeList]⟩, by simp [writeTreeList],
        fun n _ hseg => by simpa [writeTreeList] using hseg⟩
  | h, t :: rest => by
      simp only [writeTreeList]
      obtain ⟨⟨e1, he1⟩, hlb1, hub1, hsegp1⟩ := writeTree_spec h t
      obtain ⟨⟨e2, he2⟩, hvals2, hsegp2⟩ := writeTreeList_spec (writeTree h t).1 rest
      have hl1 : h.length ≤ (writeTree h t).1.length := heap_prefix_length ⟨e1, he1⟩
      have hl2 : (writeTree h t).1.length ≤ (writeTreeList (writeTree h t).1 rest).1.length :=
        heap_prefix_length ⟨e2, he2⟩
      refine ⟨⟨e1 ++ e2, by rw [he2, he1, List.append_assoc]⟩, ?_, ?_⟩
      · intro w hw
        rcases List.mem_cons.mp hw with rfl | hw2
        · exact ⟨hlb1, valUB_mono hl2 _ hub1⟩
        · obtain ⟨hwl, hwu⟩ := hvals2 w hw2
          exact ⟨valLB_mono hl1 w hwl, hwu⟩
      · intro n hn hseg
        exact hsegp2 n (le_trans hn hl1) (hsegp1 n hn hseg)

end

theorem deepcopy_spec (fuel : Nat) (h : Heap) (attr : PVal) (h2 : Heap) (v2 : PVal)
    (hd : deepcopy fuel h attr = some (h2, v2)) :
    (∃ e, h2 = h ++ e) ∧ valLB h.length v2 ∧ SegLB h.length h2 := by
  unfold deepcopy at hd
  cases hr : readVal fuel h attr with
  | none => rw [hr] at hd; exact Option.noConfusion hd
  | some t =>
      rw [hr] at hd
      have hw : writeTree h t = (h2, v2) := Option.some.inj hd
      obtain ⟨he, hlb, hub, hsegp⟩ := writeTree_spec h t
      rw [hw] at he hlb hsegp
      exact ⟨he, hlb, hsegp h.length le_rfl (SegLB_refl_top h)⟩

theorem heapDictUpdate_shape (h : Heap) (v : PVal) (new : List (String × PVal)) (h3 : Heap)
    (hu : heapDictUpdate h v new = some h3) :
    ∃ b o2, h3 = h.set b o2 ∧ (∀ n, valLB n v → n ≤ b) := by
  cases v with
  | prim j => exact Option.noConfusion hu
  | ref a =>
      cases hobj : h[a]? with
      | none =>
          simp only [heapDictUpdate, hobj] at hu
          exact Option.noConfusion hu
      | some o =>
          cases o with
          | plist vs =>
              simp only [heapDictUpdate, hobj] at hu
              exact Option.noConfusion hu
          | pdict kvs =>
              simp only [heapDictUpdate, hobj] at hu
              exact ⟨a, .pdict (dupdate kvs new), (Option.some.inj hu).symm, fun n hn => hn⟩

theorem heapDictUpdate_seg (n : Nat) (h : Heap) (v : PVal) (new : List (String × PVal))
    (h3 : Heap) (hlb : valLB n v) (hseg : SegLB n h)
    (hnew : ∀ w ∈ new.map Prod.snd, valLB n w)
    (hu : heapDictUpdate h v new = some h3) : SegLB n h3 := by
  cases v with
  | prim j => exact Option.noConfusion hu
  | ref a =>
      cases hobj : h[a]? with
      | none =>
          simp only [heapDictUpdate, hobj] at hu
          exact Option.noConfusion hu
      | some o =>
          cases o with
          | plist vs =>
              simp only [heapDictUpdate, hobj] at hu
              exact Option.noConfusion hu
          | pdict kvs =>
              simp only [heapDictUpdate, hobj] at hu
              cases Option.some.inj hu
              apply SegLB_set n h a _ hseg
              intro w hw
              rcases dupdate_vals_sub new kvs w hw with h1 | h1
              · exact hseg a (.pdict kvs) hlb hobj w h1
              · exact hnew w h1

theorem default_params_heap_spec (fuel : Nat) (h : Heap) (attr : PVal) (rb : Bool)
    (jk : List (String × JValue)) (h2 : Heap) (v2 : PVal)
    (hd : default_params_heap fuel h attr rb jk = some (h2, v2)) :
    (∃ e, h2 = h ++ e) ∧ valLB h.length v2 ∧ SegLB h.length h2 := by
  cases hdc : deepcopy fuel h attr with
  | none =>
      simp only [default_params_heap, hdc] at hd
      exact Option.noConfusion hd
  | some pr =>
      obtain ⟨hA, pA⟩ := pr
      obtain ⟨⟨e, he⟩, hlb, hseg⟩ := deepcopy_spec fuel h attr hA pA hdc
      cases rb with
      | false =>
          simp only [default_params_heap, hdc] at hd
          rw [if_neg Bool.false_ne_true] at hd
          have hpair := Option.some.inj hd
          have hh : hA = h2 := congrArg Prod.fst hpair
          have hv : pA = v2 := congrArg Prod.snd hpair
          subst hh; subst hv
          exact ⟨⟨e, he⟩, hlb, hseg⟩
      | true =>
          simp only [default_params_heap, hdc] at hd
          rw [if_pos trivial] at hd
          cases hu : heapDictUpdate hA pA (jk.map fun kv => (kv.1, PVal.prim kv.2)) with
          | none => rw [hu] at hd; exact Option.noConfusion hd
          | some h3 =>
              rw [hu, Option.map_some'] at hd
              have hpair := Option.some.inj hd
              have hh : h3 = h2 := congrArg Prod.fst hpair
              have hv : pA = v2 := congrArg Prod.snd hpair
              subst hh; subst hv
              obtain ⟨b, o2, h3eq, hble⟩ := heapDictUpdate_shape hA pA _ h3 hu
              have hseg3 : SegLB h.length h3 := heapDictUpdate_seg h.length hA pA _ h3 hlb hseg
                (fun w hw => by
                  rw [List.map_map] at hw
                  obtain ⟨kv, _, rfl⟩ := List.mem_map.mp hw
                  trivial) hu
              refine ⟨?_, hlb, hseg3⟩
              rw [h3eq, he]
              exact ⟨e.set (b - h.length) o2, List.set_append_right _ _ (hble h.length hlb)⟩

theorem set_params_assemble_spec (fuel : Nat) (h : Heap) (attr : PVal) (rb : Bool)
    (jk : List (String × JValue)) (np : List (String × PVal)) (h2 : Heap) (v2 : PVal)
    (hd : set_params_assemble_heap fuel h attr rb jk np = some (h2, v2)) :
    (∃ e, h2 = h ++ e) ∧ valLB h.length v2 := by
  cases hdp : default_params_heap fuel h attr rb jk with
  | none =>
      simp only [set_params_assemble_heap, hdp] at hd
      exact Option.noConfusion hd
  | some pr =>
      obtain ⟨hA, pA⟩ := pr
      obtain ⟨⟨e, he⟩, hlb, hseg⟩ := default_params_heap_spec fuel h attr rb jk hA pA hdp
      simp only [set_params_assemble_heap, hdp] at hd
      cases hu : heapDictUpdate hA pA np with
      | none => rw [hu] at hd; exact Option.noConfusion hd
      | some h3 =>
          rw [hu, Option.map_some'] at hd
          have hpair := Option.some.inj hd
          have hh : h3 = h2 := congrArg Prod.fst hpair
          have hv : pA = v2 := congrArg Prod.snd hpair
          subst hh; subst hv
          obtain ⟨b, o2, h3eq, hble⟩ := heapDictUpdate_shape hA pA np h3 hu
          refine ⟨?_, hlb⟩
          rw [h3eq, he]
          exact ⟨e.set (b - h.length) o2, List.set_append_right _ _ (hble h.length hlb)⟩

/-- C9: `default_params` and `params_description` return deep copies, and
the params dict assembled inside `set_params_to_folder` is likewise fresh:
each call only appends to the heap, every address reachable from the
returned dict lies in the appended fresh region, and writing to any address
beyond the original heap produces again a heap extending the original, under
which the snapshot of the class attributes `_default_params` and
`_params_description` (hence the result of every later call) is unchanged. -/
theorem C9_default_params_deep_copy (fuel : Nat) (h : Heap) (attr : PVal) (rb : Bool)
    (jk descr : List (String × JValue)) (np : List (String × PVal)) :
    (∀ h2 v2, default_params_heap fuel h attr rb jk = some (h2, v2) →
      (∃ e, h2 = h ++ e) ∧ (∀ f b, b ∈ reachA f h2 v2 → h.length ≤ b)) ∧
    (∀ h2 v2, params_description_heap fuel h attr rb descr = some (h2, v2) →
      (∃ e, h2 = h ++ e) ∧ (∀ f b, b ∈ reachA f h2 v2 → h.length ≤ b)) ∧
    (∀ h2 v2, set_params_assemble_heap fuel h attr rb jk np = some (h2, v2) →
      (∃ e, h2 = h ++ e) ∧ valLB h.length v2) ∧
    (∀ (e : List PObj) (a : Nat) (o : PObj), h.length ≤ a →
      ∃ e2, (h ++ e).set a o = h ++ e2) ∧
    (HeapWF h → valUB h.length attr →
      ∀ (rest : List PObj) (f : Nat), readVal f (h ++ rest) attr = readVal f h attr) := by
  refine ⟨fun h2 v2 hd => ?_, fun h2 v2 hd => ?_, fun h2 v2 hd => ?_,
    fun e a o ha => ?_, fun hwf hub rest f => ?_⟩
  · obtain ⟨hpre, hlb, hseg⟩ := default_params_heap_spec fuel h attr rb jk h2 v2 hd
    exact ⟨hpre, fun f b hb => reach_fresh h.length f h2 v2 hlb hseg b hb⟩
  · obtain ⟨hpre, hlb, hseg⟩ := default_params_heap_spec fuel h attr rb descr h2 v2 hd
    exact ⟨hpre, fun f b hb => reach_fresh h.length f h2 v2 hlb hseg b hb⟩
  · exact set_params_assemble_spec fuel h attr rb jk np h2 v2 hd
  · exact ⟨e.set (a - h.length) o, List.set_append_right _ _ ha⟩
  · exact readVal_append rest f h hwf attr hub

/-- Witness for C9 at a concrete heap: the class attribute is a dict at
address 0 and the copy handed out lives at the fresh address 1. -/
theorem C9_default_params_deep_copy_witness :
    (∃ e, ([PObj.pdict [("a", PVal.prim (JValue.jint 1))],
            PObj.pdict [("a", PVal.prim (JValue.jint 1))]] : Heap)
        = [PObj.pdict [("a", PVal.prim (JValue.jint 1))]] ++ e) ∧
    (∀ f b, b ∈ reachA f [PObj.pdict [("a", PVal.prim (JValue.jint 1))],
            PObj.pdict [("a", PVal.prim (JValue.jint 1))]] (PVal.ref 1) → 1 ≤ b) :=
  (C9_default_params_deep_copy 2
      [PObj.pdict [("a", PVal.prim (JValue.jint 1))]] (PVal.ref 0) false [] [] []).1
    [PObj.pdict [("a", PVal.prim (JValue.jint 1))],
     PObj.pdict [("a", PVal.prim (JValue.jint 1))]] (PVal.ref 1) rfl
